import Mathlib

/-!
A shallow embedding of the timer / persisted-history core of the
Recording Effort application (file src/src/App.tsx), together with
theorems settling the specification claims about that core.

Conventions of the embedding:
* wall-clock instants and durations are integers (milliseconds since the
  Unix epoch, as produced by Date.now());
* the local time zone is modeled as a fixed offset east of UTC in
  minutes (no DST), so Date.prototype.toTimeString and
  toLocaleDateString read the instant plus the offset while
  Date.prototype.toISOString reads the instant itself (UTC);
* JavaScript objects with the string keys produced here are modeled as
  insertion-ordered association lists, matching the enumeration order of
  Object.entries for non-index keys;
* Array.prototype.sort (stable since ES2019) is modeled as a stable
  insertion sort over the same comparator: for the consistent numeric
  comparators used by the source this determines the output uniquely;
* JavaScript number division on the integral inputs occurring here is
  modeled exactly in the rationals;
* the localStorage cell for a key is carried explicitly as an Option
  value, and JSON parsing of the history payload is a collaborator
  returning an Except.
-/

namespace RecordingEffort

/-- Gregorian calendar date (year, month, day) of a day number counted
    from 1970-01-01, as computed by the standard civil-from-days
    algorithm that ECMAScript Date conversions implement. -/
def civilFromDays (z0 : Int) : Int × Int × Int :=
  let z := z0 + 719468
  let era := Int.fdiv z 146097
  let doe := z - era * 146097
  let yoe := Int.fdiv (doe - Int.fdiv doe 1460 + Int.fdiv doe 36524 - Int.fdiv doe 146096) 365
  let y := yoe + era * 400
  let doy := doe - (365 * yoe + Int.fdiv yoe 4 - Int.fdiv yoe 100)
  let mp := Int.fdiv (5 * doy + 2) 153
  let d := doy - Int.fdiv (153 * mp + 2) 5 + 1
  let m := mp + (if mp < 10 then 3 else -9)
  (y + (if m ≤ 2 then 1 else 0), m, d)

/-- Left-pad a number to two digits. -/
def pad2 (n : Nat) : String :=
  if n < 10 then "0" ++ toString n else toString n

/-- Left-pad a number to four digits. -/
def pad4 (n : Nat) : String :=
  if n < 10 then "000" ++ toString n
  else if n < 100 then "00" ++ toString n
  else if n < 1000 then "0" ++ toString n
  else toString n

/-- Date.prototype.toISOString().slice(0, 10): the calendar date of the
    instant in UTC, formatted YYYY-MM-DD. -/
def isoDate (t : Int) : String :=
  let c := civilFromDays (Int.fdiv t 86400000)
  pad4 c.1.toNat ++ "-" ++ pad2 c.2.1.toNat ++ "-" ++ pad2 c.2.2.toNat

/-- The calendar date of the instant in the local time zone (a fixed
    offset of off minutes east of UTC), formatted YYYY-MM-DD; this is
    what toLocaleDateString with the sv locale returns in App.tsx. -/
def localDateStr (off t : Int) : String :=
  isoDate (t + off * 60000)

/-- Date.prototype.toTimeString().slice(0, 5): the local clock time of
    the instant, formatted HH:MM. -/
def localTimeHHMM (off t : Int) : String :=
  let lt := t + off * 60000
  let msOfDay := Int.emod lt 86400000
  pad2 (Int.fdiv msOfDay 3600000).toNat ++ ":" ++ pad2 (Int.emod (Int.fdiv msOfDay 60000) 60).toNat

/-! ### The stopwatch engine (useTimer, App.tsx lines 37-177) -/

/-- The JSON payload persisted under the timer-state key: start writes
    isRunning true with baseTime, pause writes isRunning false with
    pausedTime. -/
structure TimerPayload where
  isRunning : Bool
  baseTime : Option Int
  pausedTime : Option Int
deriving Repr, DecidableEq

/-- In-memory state of useTimer (time, isRunning, startTimeRef) together
    with the persisted timer-state cell. -/
structure TimerState where
  time : Int
  isRunning : Bool
  startTimeRef : Option Int
  stored : Option TimerPayload
deriving Repr, DecidableEq

/-- JavaScript truthiness of an optional number: undefined and 0 are
    falsy, every other number is truthy. -/
def jsTruthy : Option Int → Bool
  | none => false
  | some x => x != 0

/-- The restore-on-mount effect of useTimer (App.tsx lines 76-97): a
    payload that is running with a truthy anchor restores elapsed as
    now minus the anchor; otherwise a truthy paused snapshot is restored
    verbatim; otherwise the defaults (0, not running) stand. -/
def restoreTimer (now : Int) (saved : Option TimerPayload) : TimerState :=
  match saved with
  | none => ⟨0, false, none, none⟩
  | some p =>
    if p.isRunning && jsTruthy p.baseTime then
      ⟨now - p.baseTime.getD 0, true, p.baseTime, some p⟩
    else if jsTruthy p.pausedTime then
      ⟨p.pausedTime.getD 0, false, none, some p⟩
    else
      ⟨0, false, none, some p⟩

/-- useTimer.start (App.tsx lines 133-146): anchor at now minus the
    current elapsed time and persist the running payload. -/
def start (now : Int) (s : TimerState) : TimerState :=
  let baseTime := now - s.time
  ⟨s.time, true, some baseTime, some ⟨true, some baseTime, none⟩⟩

/-- useTimer.pause (App.tsx lines 148-158): stop running; only when the
    anchor ref is truthy, recompute elapsed from the wall clock and
    persist the paused payload. -/
def pause (now : Int) (s : TimerState) : TimerState :=
  match s.startTimeRef with
  | none => { s with isRunning := false }
  | some a =>
    if a = 0 then { s with isRunning := false }
    else
      { time := now - a
        isRunning := false
        startTimeRef := some a
        stored := some ⟨false, none, some (now - a)⟩ }

/-- useTimer.reset (App.tsx lines 160-166): return to the idle state and
    clear the persisted timer-state cell. -/
def reset (_s : TimerState) : TimerState :=
  ⟨0, false, none, none⟩

/-! ### The history store (useHistory, App.tsx lines 189-359) -/

/-- One committed session record (interface Record, App.tsx lines
    179-185). -/
structure SessionRecord where
  id : String
  date : String
  startTime : String
  taskName : String
  duration : Int
deriving Repr, DecidableEq

/-- The restore-on-mount effect of useHistory (App.tsx lines 193-203):
    an absent payload and a payload on which JSON.parse throws both
    leave the initial empty list in place. -/
def restoreHistory (saved : Option String)
    (parse : String → Except String (List SessionRecord)) : List SessionRecord :=
  match saved with
  | none => []
  | some s =>
    match parse s with
    | Except.ok l => l
    | Except.error _ => []

/-- useHistory.deleteRecord (App.tsx lines 230-232): keep exactly the
    records whose id differs. -/
def deleteRecord (id : String) (records : List SessionRecord) : List SessionRecord :=
  records.filter (fun r => decide (r.id ≠ id))

/-- App.handleRecord (App.tsx lines 791-810) composed with
    useHistory.addRecord (lines 211-228): a zero elapsed time is a
    silent no-op; otherwise a record stamped with the ISO (UTC) date of
    the commit instant and the local clock time of commit minus
    duration, with a placeholder for a blank task name, is prepended.
    The fresh id comes from the unique-id collaborator. -/
def handleRecord (time now off : Int) (taskName id : String)
    (records : List SessionRecord) : List SessionRecord :=
  if time = 0 then records
  else
    { id := id
      date := isoDate now
      startTime := localTimeHHMM off (now - time)
      taskName := if taskName = "" then "Untitled Task" else taskName
      duration := time } :: records

/-! ### Claims about the timer and the history CRUD operations -/

/-- Claim C1 (amended): on (re)initialization, a persisted payload that
    indicates running with a nonzero anchor restores elapsed as now
    minus the anchor (not 0 and not the value at last save); a payload
    that indicates paused with a stored snapshot restores exactly that
    snapshot and is not running. -/
theorem restoreTimer_spec :
    (∀ (now b : Int) (p : TimerPayload), p.isRunning = true → p.baseTime = some b → b ≠ 0 →
      (restoreTimer now (some p)).time = now - b ∧ (restoreTimer now (some p)).isRunning = true)
    ∧ (∀ (now q : Int) (p : TimerPayload), p.isRunning = false → p.pausedTime = some q →
      (restoreTimer now (some p)).time = q ∧ (restoreTimer now (some p)).isRunning = false) := by
  constructor
  · intro now b p h1 h2 h3
    have hb2 : (b != 0) = true := by simpa using h3
    simp [restoreTimer, jsTruthy, h1, h2, hb2]
  · intro now q p h1 h2
    by_cases hq : q = 0
    · subst hq
      simp [restoreTimer, jsTruthy, h1, h2]
    · have hq2 : (q != 0) = true := by simpa using hq
      simp [restoreTimer, jsTruthy, h1, h2, hq2]

/-- Witness for the amended claim C1 at concrete payloads: a running
    payload anchored at 2000 restored at instant 5000, and a paused
    payload with snapshot 1234. -/
theorem restoreTimer_spec_witness :
    ((restoreTimer 5000 (some ⟨true, some 2000, none⟩)).time = 5000 - 2000
      ∧ (restoreTimer 5000 (some ⟨true, some 2000, none⟩)).isRunning = true)
    ∧ ((restoreTimer 5000 (some ⟨false, none, some 1234⟩)).time = 1234
      ∧ (restoreTimer 5000 (some ⟨false, none, some 1234⟩)).isRunning = false) :=
  ⟨restoreTimer_spec.1 5000 2000 ⟨true, some 2000, none⟩ rfl rfl (by decide),
   restoreTimer_spec.2 5000 1234 ⟨false, none, some 1234⟩ rfl rfl⟩

/-- Counterexample to claim C1 as stated: the payload that indicates
    running with the (falsy) anchor 0 is not restored as running with
    elapsed now minus 0; the restore effect falls through to the
    defaults because of the JavaScript truthiness test on the anchor. -/
theorem restoreTimer_zero_anchor_cex :
    ¬ ((restoreTimer 1000 (some ⟨true, some 0, none⟩)).time = 1000 - 0
        ∧ (restoreTimer 1000 (some ⟨true, some 0, none⟩)).isRunning = true) := by
  decide

/-- Claim C7: a persisted history payload on which parsing fails
    initializes the store with zero records; the restore function is
    total, so no error propagates. -/
theorem history_fail_open (s msg : String)
    (parse : String → Except String (List SessionRecord))
    (h : parse s = Except.error msg) :
    restoreHistory (some s) parse = [] := by
  simp [restoreHistory, h]

/-- A parse collaborator that rejects every payload. -/
def badParse : String → Except String (List SessionRecord) :=
  fun _ => Except.error "unparseable"

/-- Witness for claim C7 at a concrete corrupt payload. -/
theorem history_fail_open_witness :
    restoreHistory (some "corrupt payload") badParse = [] :=
  history_fail_open "corrupt payload" "unparseable" badParse rfl

/-- Claim C8: a commit attempted with elapsed time exactly zero is a
    silent no-op: the history log is returned unchanged and no record is
    created (the function is total, so no error is raised). -/
theorem handleRecord_zero_noop (now off : Int) (taskName id : String)
    (records : List SessionRecord) :
    handleRecord 0 now off taskName id records = records := by
  simp [handleRecord]

/-- Claim C9: deleting an id that occurs on exactly one record removes
    exactly that record and preserves every other record and their
    relative order; deleting an absent id is a no-op. -/
theorem deleteRecord_exact :
    (∀ (id : String) (l1 l2 : List SessionRecord) (r : SessionRecord),
        r.id = id → (∀ x ∈ l1, x.id ≠ id) → (∀ x ∈ l2, x.id ≠ id) →
        deleteRecord id (l1 ++ r :: l2) = l1 ++ l2)
    ∧ (∀ (id : String) (l : List SessionRecord),
        (∀ x ∈ l, x.id ≠ id) → deleteRecord id l = l) := by
  have keep : ∀ (id : String) (l : List SessionRecord),
      (∀ x ∈ l, x.id ≠ id) → l.filter (fun r => decide (r.id ≠ id)) = l := by
    intro id l h
    induction l with
    | nil => rfl
    | cons x xs ih =>
      have hx : x.id ≠ id := h x (List.mem_cons_self x xs)
      have hxs := ih (fun y hy => h y (List.mem_cons_of_mem x hy))
      simp [List.filter_cons, hx, hxs]
      exact fun a ha => h a (List.mem_cons_of_mem x ha)
  constructor
  · intro id l1 l2 r hr h1 h2
    have hrdrop : (decide (r.id ≠ id)) = false := by simp [hr]
    simp only [deleteRecord, List.filter_append, List.filter_cons, hrdrop]
    rw [keep id l1 h1, keep id l2 h2]
    simp
  · intro id l h
    exact keep id l h

/-- A first concrete record used by witnesses. -/
def recA : SessionRecord :=
  ⟨"a", "2024-01-01", "10:00", "Deep Work", 1000⟩

/-- A second concrete record used by witnesses. -/
def recB : SessionRecord :=
  ⟨"b", "2024-01-01", "11:00", "Reading", 2000⟩

/-- Witness for claim C9: deleting id a from the two-record log removes
    exactly that record, and deleting the absent id z changes nothing. -/
theorem deleteRecord_exact_witness :
    deleteRecord "a" [recA, recB] = [recB]
    ∧ deleteRecord "z" [recA, recB] = [recA, recB] :=
  ⟨deleteRecord_exact.1 "a" [] [recB] recA rfl (by decide) (by decide),
   deleteRecord_exact.2 "z" [recA, recB] (by decide)⟩

/-- Claim C10: pause invoked in the idle state (no anchor ever stored,
    elapsed 0) leaves the elapsed time at 0 and the persisted
    timer-state cell untouched; its only effect is that the running flag
    is (still) false. -/
theorem pause_idle_noop (now : Int) (s : TimerState)
    (h1 : s.startTimeRef = none) (h2 : s.time = 0) :
    pause now s = ⟨0, false, none, s.stored⟩ := by
  obtain ⟨t, ir, ref, st⟩ := s
  simp only at h1 h2
  subst h1; subst h2
  rfl

/-- Witness for claim C10 at a concrete idle state. -/
theorem pause_idle_noop_witness :
    pause 777 ⟨0, false, none, none⟩ = ⟨0, false, none, none⟩ :=
  pause_idle_noop 777 ⟨0, false, none, none⟩ rfl rfl

/-- Claim C3 (amended): a commit with nonzero elapsed time prepends a
    record whose date field is the UTC calendar date (ISO timestamp) of
    the commit instant, whose startTime field is the local clock time of
    the commit instant minus the duration, and whose duration is the
    elapsed time; the rest of the log is unchanged. -/
theorem handleRecord_date_fields (time now off : Int) (taskName id : String)
    (records : List SessionRecord) (h : time ≠ 0) :
    (handleRecord time now off taskName id records).head?.map (fun r => r.date)
        = some (isoDate now)
    ∧ (handleRecord time now off taskName id records).head?.map (fun r => r.startTime)
        = some (localTimeHHMM off (now - time))
    ∧ (handleRecord time now off taskName id records).head?.map (fun r => r.duration)
        = some time
    ∧ (handleRecord time now off taskName id records).tail = records := by
  simp [handleRecord, h]

/-- Witness for the amended claim C3: a one-minute session committed at
    2024-01-15T20:00Z in a zone nine hours east of UTC. -/
theorem handleRecord_date_fields_witness :
    (handleRecord 60000 1705348800000 540 "Focus Time" "id0" []).head?.map (fun r => r.date)
        = some (isoDate 1705348800000)
    ∧ (handleRecord 60000 1705348800000 540 "Focus Time" "id0" []).head?.map (fun r => r.startTime)
        = some (localTimeHHMM 540 (1705348800000 - 60000))
    ∧ (handleRecord 60000 1705348800000 540 "Focus Time" "id0" []).head?.map (fun r => r.duration)
        = some 60000
    ∧ (handleRecord 60000 1705348800000 540 "Focus Time" "id0" []).tail = [] :=
  handleRecord_date_fields 60000 1705348800000 540 "Focus Time" "id0" [] (by decide)

/-- Counterexample to claim C3 as stated: committed at 2024-01-15T20:00Z
    in a zone nine hours east of UTC, the created record is stamped with
    the UTC date 2024-01-15, not with the local calendar date 2024-01-16
    of the commit instant. -/
theorem handleRecord_local_date_cex :
    (handleRecord 60000 1705348800000 540 "Focus Time" "id0" []).map (fun r => r.date)
      ≠ [localDateStr 540 1705348800000] := by
  decide

/-! ### The aggregation engine (useHistory.getStats, App.tsx lines 268-349) -/

/-- The per-task accumulator of getStats (the taskDetails object value,
    App.tsx line 278). The set of active dates is an insertion-ordered
    duplicate-free list. -/
structure TaskDetails where
  totalDuration : Int
  todayDuration : Int
  activeDates : List String
deriving Repr, DecidableEq

/-- The fresh accumulator installed when a task name is first seen
    (App.tsx lines 288-290). -/
def TaskDetails.empty : TaskDetails := ⟨0, 0, []⟩

/-- Set.add on the active-date list: append the date unless present. -/
def addActiveDate (dates : List String) (d : String) : List String :=
  if d ∈ dates then dates else dates ++ [d]

/-- One record folded into one task accumulator (App.tsx lines 292-299):
    add the duration to the total, mark the date active, and add the
    duration to the today bucket when the date equals the local date. -/
def recordInto (todayStr : String) (r : SessionRecord) (d : TaskDetails) : TaskDetails :=
  { totalDuration := d.totalDuration + r.duration
    todayDuration := d.todayDuration + (if r.date = todayStr then r.duration else 0)
    activeDates := addActiveDate d.activeDates r.date }

/-- Update (or first create) the accumulator of the record task name in
    the insertion-ordered taskDetails association list. -/
def updateDetails (todayStr : String) (r : SessionRecord) :
    List (String × TaskDetails) → List (String × TaskDetails)
  | [] => [(r.taskName, recordInto todayStr r TaskDetails.empty)]
  | (k, d) :: rest =>
    if k = r.taskName then (k, recordInto todayStr r d) :: rest
    else (k, d) :: updateDetails todayStr r rest

/-- The records.forEach loop building taskDetails (App.tsx lines
    287-300); Object.entries later enumerates it in this first-seen key
    order. -/
def buildTaskDetails (todayStr : String) (records : List SessionRecord) :
    List (String × TaskDetails) :=
  records.foldl (fun acc r => updateDetails todayStr r acc) []

/-- One element of the taskSummaries array (App.tsx lines 303-309). -/
structure TaskSummary where
  name : String
  totalDuration : Int
  todayDuration : Int
  averageDuration : Rat
deriving Repr, DecidableEq

/-- The map step of App.tsx lines 304-309: project an accumulator entry
    to a summary, dividing the total by the number of active dates. -/
def mkSummary (p : String × TaskDetails) : TaskSummary :=
  { name := p.1
    totalDuration := p.2.totalDuration
    todayDuration := p.2.todayDuration
    averageDuration :=
      if p.2.activeDates.length > 0 then
        (p.2.totalDuration : Rat) / (p.2.activeDates.length : Rat)
      else 0 }

/-- Stable insertion of one element into a list sorted descending by
    rank: the element goes after every element of at least its rank, so
    elements inserted later stay after earlier ties. -/
def insertDesc (rank : α → Int) (x : α) : List α → List α
  | [] => [x]
  | y :: ys => if rank x ≤ rank y then y :: insertDesc rank x ys else x :: y :: ys

/-- The stable descending sort modeling Array.prototype.sort with the
    numeric comparator b rank minus a rank (App.tsx lines 310 and 339):
    ECMAScript sort is stable, so this determines its output. -/
def sortDesc (rank : α → Int) (l : List α) : List α :=
  l.foldl (fun s x => insertDesc rank x s) []

/-- The sorted taskSummaries array of getStats (App.tsx lines 303-310). -/
def taskSummariesOf (todayStr : String) (records : List SessionRecord) :
    List TaskSummary :=
  sortDesc (fun s => s.totalDuration) ((buildTaskDetails todayStr records).map mkSummary)

/-- The topTasks array of getStats (App.tsx lines 312-314). -/
def topTasksOf (todayStr : String) (records : List SessionRecord) : List String :=
  ((taskSummariesOf todayStr records).take 5).map (fun s => s.name)

/-- One point of the 30-day chart: the date key and the per-top-task
    minute values of the JavaScript data object. -/
structure ChartPoint where
  date : String
  vals : List (String × Rat)
deriving Repr, DecidableEq

/-- The date keys of the last 30 days (App.tsx lines 270-276): under a
    fixed local offset, setDate(getDate() minus i) on a fresh Date is
    the commit instant minus i days, and toISOString then yields the
    UTC calendar date of that instant. -/
def dateKeys (now : Int) : List String :=
  (List.range 30).map (fun j => isoDate (now - ((29 : Int) - (j : Int)) * 86400000))

/-- The chartData skeleton (App.tsx lines 317-323): one point per date
    key, with every top task initialized to 0. -/
def initChart (now : Int) (tt : List String) : List ChartPoint :=
  (dateKeys now).map (fun d => ⟨d, tt.map (fun t => (t, (0 : Rat)))⟩)

/-- The in-place update dataPoint[r.taskName] += r.duration / 60000 on
    the vals association list. -/
def bumpVals (task : String) (q : Rat) (vals : List (String × Rat)) :
    List (String × Rat) :=
  vals.map (fun p => if p.1 = task then (p.1, p.2 + q) else p)

/-- One record folded into the chart (App.tsx lines 325-331): find the
    first point with the record date and, when the task is a top task,
    add the duration in minutes to that point. -/
def applyRecord (tt : List String) : List ChartPoint → SessionRecord → List ChartPoint
  | [], _ => []
  | p :: ps, r =>
    if p.date = r.date then
      (if r.taskName ∈ tt then
        ⟨p.date, bumpVals r.taskName ((r.duration : Rat) / 60000) p.vals⟩
      else p) :: ps
    else p :: applyRecord tt ps r

/-- The filled chartData array of getStats (App.tsx lines 317-331). -/
def chartDataOf (now : Int) (tt : List String) (records : List SessionRecord) :
    List ChartPoint :=
  records.foldl (applyRecord tt) (initChart now tt)

/-- Update (or first create) the occurrence counter of a task name in
    the insertion-ordered taskCounts association list (App.tsx lines
    334-337). -/
def bumpCount (name : String) : List (String × Int) → List (String × Int)
  | [] => [(name, 1)]
  | (k, c) :: rest =>
    if k = name then (k, c + 1) :: rest else (k, c) :: bumpCount name rest

/-- The taskCounts object of getStats (App.tsx lines 334-337), in
    first-seen key order. -/
def taskCounts (records : List SessionRecord) : List (String × Int) :=
  records.foldl (fun acc r => bumpCount r.taskName acc) []

/-- The frequentTasks array of getStats (App.tsx lines 338-341). -/
def frequentTasksOf (records : List SessionRecord) : List String :=
  ((sortDesc (fun p => p.2) (taskCounts records)).take 8).map (fun p => p.1)

/-- The result object of getStats (App.tsx lines 343-348). -/
structure Stats where
  frequentTasks : List String
  chartData : List ChartPoint
  topTasks : List String
  taskSummaries : List TaskSummary
deriving Repr, DecidableEq

/-- useHistory.getStats (App.tsx lines 268-349), reading the clock at
    the instant now in a zone off minutes east of UTC. -/
def getStats (now off : Int) (records : List SessionRecord) : Stats :=
  let todayStr := localDateStr off now
  { frequentTasks := frequentTasksOf records
    chartData := chartDataOf now (topTasksOf todayStr records) records
    topTasks := topTasksOf todayStr records
    taskSummaries := taskSummariesOf todayStr records }

/-! ### Spec-side definitions for the aggregation claims -/

/-- Spec measure: the summed duration of the records of a task. -/
def sumDur (records : List SessionRecord) (k : String) : Int :=
  ((records.filter (fun r => decide (r.taskName = k))).map (fun r => r.duration)).sum

/-- Spec measure: the summed duration of the records of a task dated on
    the given (local) day. -/
def sumDurToday (todayStr : String) (records : List SessionRecord) (k : String) : Int :=
  ((records.filter (fun r => decide (r.taskName = k ∧ r.date = todayStr))).map
    (fun r => r.duration)).sum

/-- Spec measure: the set of distinct dates on which a task has at least
    one record (its active days). -/
def activeDateFinset (records : List SessionRecord) (k : String) : Finset String :=
  ((records.filter (fun r => decide (r.taskName = k))).map (fun r => r.date)).toFinset

/-- Spec measure: the duration of the records of a task on one date,
    converted to minutes. -/
def minuteSum (records : List SessionRecord) (task d : String) : Rat :=
  ((records.filter (fun r => decide (r.taskName = task ∧ r.date = d))).map
    (fun r => (r.duration : Rat) / 60000)).sum

/-- Pair every element with its position. -/
def attachIdx (n : Nat) : List α → List (Nat × α)
  | [] => []
  | a :: l => (n, a) :: attachIdx (n + 1) l

/-- Insertion into a list sorted by the strict key (rank descending,
    then position ascending): an element stays ahead exactly when its
    rank is larger or it is an earlier tie. -/
def insertDescIdx (rank : α → Int) (x : Nat × α) : List (Nat × α) → List (Nat × α)
  | [] => [x]
  | y :: ys =>
    if rank x.2 < rank y.2 ∨ (rank x.2 = rank y.2 ∧ y.1 < x.1) then
      y :: insertDescIdx rank x ys
    else x :: y :: ys

/-- The spec ordering: sort by rank descending with ties broken by
    original position (the unique stable descending order). -/
def sortDescIdx (rank : α → Int) (l : List α) : List α :=
  ((attachIdx 0 l).foldl (fun s x => insertDescIdx rank x s) []).map (fun p => p.2)

/-- Spec wording of the frequent-task shortcuts: the 8 task names with
    the highest occurrence count, descending, ties broken by first-seen
    order. -/
def frequentTasksSpec (records : List SessionRecord) : List String :=
  ((sortDescIdx (fun p => p.2) (taskCounts records)).take 8).map (fun p => p.1)

/-- Spec wording of the summary ordering: the per-task summaries sorted
    by total duration descending, ties broken by first-encounter order. -/
def taskSummariesSpec (todayStr : String) (records : List SessionRecord) :
    List TaskSummary :=
  sortDescIdx (fun s => s.totalDuration) ((buildTaskDetails todayStr records).map mkSummary)

/-- The key list of an association list. -/
def keysOf (l : List (String × β)) : List String :=
  l.map (fun p => p.1)

/-- Spec measure: the occurrence count of a task, as a number of
    records. -/
def countRecords (records : List SessionRecord) (k : String) : Int :=
  ((records.filter (fun r => decide (r.taskName = k))).length : Int)

/-- First-match lookup of a counter, with the JavaScript default 0 of
    the expression taskCounts[name] or 0. -/
def cntOf (k : String) : List (String × Int) → Int
  | [] => 0
  | p :: rest => if p.1 = k then p.2 else cntOf k rest

/-! ### Lemmas about the stable sort -/

theorem mem_insertDesc (rank : α → Int) (x a : α) (l : List α) :
    a ∈ insertDesc rank x l ↔ a = x ∨ a ∈ l := by
  induction l with
  | nil => simp [insertDesc]
  | cons y ys ih =>
    simp only [insertDesc]
    split
    · rw [List.mem_cons, ih, List.mem_cons]
      tauto
    · rw [List.mem_cons]

theorem mem_foldl_insertDesc (rank : α → Int) (a : α) :
    ∀ (l acc : List α),
      a ∈ l.foldl (fun s x => insertDesc rank x s) acc ↔ a ∈ acc ∨ a ∈ l := by
  intro l
  induction l with
  | nil => intro acc; simp
  | cons x xs ih =>
    intro acc
    rw [List.foldl_cons, ih, mem_insertDesc]
    simp
    tauto

theorem mem_sortDesc (rank : α → Int) (a : α) (l : List α) :
    a ∈ sortDesc rank l ↔ a ∈ l := by
  unfold sortDesc
  rw [mem_foldl_insertDesc]
  simp

theorem pairwise_insertDesc (rank : α → Int) (x : α) (l : List α)
    (h : l.Pairwise (fun a b => rank b ≤ rank a)) :
    (insertDesc rank x l).Pairwise (fun a b => rank b ≤ rank a) := by
  induction l with
  | nil => simp [insertDesc]
  | cons y ys ih =>
    rcases List.pairwise_cons.mp h with ⟨hy, hys⟩
    simp only [insertDesc]
    by_cases hle : rank x ≤ rank y
    · rw [if_pos hle]
      refine List.pairwise_cons.mpr ⟨?_, ih hys⟩
      intro z hz
      rcases (mem_insertDesc rank x z ys).mp hz with h1 | h1
      · rw [h1]; exact hle
      · exact hy z h1
    · rw [if_neg hle]
      have hxy : rank y ≤ rank x := (not_le.mp hle).le
      refine List.pairwise_cons.mpr ⟨?_, h⟩
      intro z hz
      rcases List.mem_cons.mp hz with h1 | h1
      · rw [h1]; exact hxy
      · exact le_trans (hy z h1) hxy

theorem pairwise_foldl_insertDesc (rank : α → Int) :
    ∀ (l acc : List α), acc.Pairwise (fun a b => rank b ≤ rank a) →
      (l.foldl (fun s x => insertDesc rank x s) acc).Pairwise
        (fun a b => rank b ≤ rank a) := by
  intro l
  induction l with
  | nil => intro acc h; simpa using h
  | cons x xs ih =>
    intro acc h
    rw [List.foldl_cons]
    exact ih _ (pairwise_insertDesc rank x acc h)

theorem pairwise_sortDesc (rank : α → Int) (l : List α) :
    (sortDesc rank l).Pairwise (fun a b => rank b ≤ rank a) :=
  pairwise_foldl_insertDesc rank l [] (by simp)

theorem mem_insertDescIdx (rank : α → Int) (x z : Nat × α) :
    ∀ (l : List (Nat × α)), z ∈ insertDescIdx rank x l → z = x ∨ z ∈ l := by
  intro l
  induction l with
  | nil =>
    intro h
    simpa [insertDescIdx] using h
  | cons y ys ih =>
    simp only [insertDescIdx]
    split
    · intro h
      rcases List.mem_cons.mp h with h1 | h1
      · exact Or.inr (List.mem_cons.mpr (Or.inl h1))
      · rcases ih h1 with h2 | h2
        · exact Or.inl h2
        · exact Or.inr (List.mem_cons.mpr (Or.inr h2))
    · intro h
      rcases List.mem_cons.mp h with h1 | h1
      · exact Or.inl h1
      · exact Or.inr h1

theorem map_snd_insertDescIdx (rank : α → Int) (x : Nat × α) :
    ∀ (l : List (Nat × α)), (∀ y ∈ l, y.1 < x.1) →
      (insertDescIdx rank x l).map (fun p => p.2)
        = insertDesc rank x.2 (l.map (fun p => p.2)) := by
  intro l
  induction l with
  | nil => intro _; rfl
  | cons y ys ih =>
    intro h
    have hy : y.1 < x.1 := h y (List.mem_cons_self _ _)
    have hys : ∀ z ∈ ys, z.1 < x.1 := fun z hz => h z (List.mem_cons_of_mem _ hz)
    simp only [insertDescIdx, insertDesc, List.map_cons]
    by_cases hle : rank x.2 ≤ rank y.2
    · have hcond : rank x.2 < rank y.2 ∨ (rank x.2 = rank y.2 ∧ y.1 < x.1) := by
        rcases lt_or_eq_of_le hle with h1 | h1
        · exact Or.inl h1
        · exact Or.inr ⟨h1, hy⟩
      rw [if_pos hcond, if_pos hle, List.map_cons, ih hys]
    · have hcond : ¬(rank x.2 < rank y.2 ∨ (rank x.2 = rank y.2 ∧ y.1 < x.1)) := by
        rintro (h1 | ⟨h1, _⟩) <;> omega
      rw [if_neg hcond, if_neg hle]
      simp

theorem foldl_insertDescIdx (rank : α → Int) :
    ∀ (l : List α) (n : Nat) (acc : List (Nat × α)), (∀ y ∈ acc, y.1 < n) →
      ((attachIdx n l).foldl (fun s x => insertDescIdx rank x s) acc).map (fun p => p.2)
        = l.foldl (fun s x => insertDesc rank x s) (acc.map (fun p => p.2)) := by
  intro l
  induction l with
  | nil => intro n acc _; rfl
  | cons a l ih =>
    intro n acc h
    simp only [attachIdx, List.foldl_cons]
    have hbound : ∀ z ∈ insertDescIdx rank (n, a) acc, z.1 < n + 1 := by
      intro z hz
      rcases mem_insertDescIdx rank (n, a) z acc hz with h1 | h1
      · rw [h1]; exact Nat.lt_succ_self n
      · exact Nat.lt_succ_of_lt (h z h1)
    rw [ih (n + 1) _ hbound, map_snd_insertDescIdx rank (n, a) acc h]

/-- The stable descending insertion sort equals the sort by the strict
    key (rank descending, then original position): the stable tie-break
    is exactly position order. -/
theorem sortDesc_eq_sortDescIdx (rank : α → Int) (l : List α) :
    sortDesc rank l = sortDescIdx rank l :=
  (foldl_insertDescIdx rank l 0 [] (by simp)).symm

/-! ### Lemmas about the occurrence counters -/

theorem cntOf_of_mem (k : String) (c : Int) :
    ∀ (acc : List (String × Int)), (keysOf acc).Nodup → (k, c) ∈ acc →
      cntOf k acc = c := by
  intro acc
  induction acc with
  | nil => intro _ h; simp at h
  | cons p rest ih =>
    intro hnd hmem
    rcases p with ⟨k1, c1⟩
    simp only [keysOf, List.map_cons, List.nodup_cons] at hnd
    rcases List.mem_cons.mp hmem with h1 | h1
    · have hk : k = k1 := congrArg Prod.fst h1
      have hc : c = c1 := congrArg Prod.snd h1
      subst hk
      simp [cntOf, hc]
    · have hk1 : ¬ (k1 = k) := by
        intro hcontra
        subst hcontra
        exact hnd.1 (List.mem_map_of_mem (fun p => p.1) h1)
      simp only [cntOf, if_neg hk1]
      exact ih hnd.2 h1

theorem cntOf_bumpCount (name k : String) :
    ∀ (acc : List (String × Int)),
      cntOf k (bumpCount name acc)
        = cntOf k acc + (if name = k then 1 else 0) := by
  intro acc
  induction acc with
  | nil =>
    by_cases h : name = k <;> simp [bumpCount, cntOf, h]
  | cons p rest ih =>
    rcases p with ⟨k1, c⟩
    by_cases h1 : k1 = name
    · by_cases h2 : k1 = k
      · have h3 : name = k := h1.symm.trans h2
        simp [bumpCount, h1, cntOf, h2, h3]
      · have h3 : ¬ name = k := fun hh => h2 (h1.trans hh)
        have h3s : ¬ k = name := fun hh => h3 hh.symm
        simp [bumpCount, h1, cntOf, h2, h3, h3s]
    · by_cases h2 : k1 = k
      · have h3 : ¬ name = k := fun hh => h1 (h2.trans hh.symm)
        have h3s : ¬ k = name := fun hh => h3 hh.symm
        have h1s : ¬ name = k1 := fun hh => h1 hh.symm
        simp [bumpCount, h1, cntOf, h2, h3, h3s, h1s]
      · simp [bumpCount, h1, cntOf, h2, ih]

theorem countRecords_cons (r : SessionRecord) (rs : List SessionRecord) (k : String) :
    countRecords (r :: rs) k
      = (if r.taskName = k then 1 else 0) + countRecords rs k := by
  by_cases h : r.taskName = k <;> simp [countRecords, List.filter_cons, h] <;> omega

theorem cntOf_taskCounts_aux (k : String) :
    ∀ (records : List SessionRecord) (acc : List (String × Int)),
      cntOf k (records.foldl (fun a r => bumpCount r.taskName a) acc)
        = cntOf k acc + countRecords records k := by
  intro records
  induction records with
  | nil => intro acc; simp [countRecords]
  | cons r rs ih =>
    intro acc
    rw [List.foldl_cons, ih, cntOf_bumpCount, countRecords_cons]
    by_cases h : r.taskName = k <;> simp [h] <;> omega

/-- The looked-up occurrence counter of any task equals its number of
    records in the log. -/
theorem cntOf_taskCounts (records : List SessionRecord) (k : String) :
    cntOf k (taskCounts records) = countRecords records k := by
  have := cntOf_taskCounts_aux k records []
  simpa [taskCounts, cntOf] using this

theorem keysOf_bumpCount (name : String) :
    ∀ (acc : List (String × Int)),
      keysOf (bumpCount name acc)
        = if name ∈ keysOf acc then keysOf acc else keysOf acc ++ [name] := by
  intro acc
  induction acc with
  | nil => simp [bumpCount, keysOf]
  | cons p rest ih =>
    rcases p with ⟨k1, c⟩
    by_cases h1 : k1 = name
    · subst h1
      simp [bumpCount, keysOf]
    · have h1s : ¬ name = k1 := fun hh => h1 hh.symm
      simp only [bumpCount, if_neg h1, keysOf, List.map_cons]
      simp only [keysOf] at ih
      rw [ih]
      by_cases h2 : name ∈ rest.map (fun p => p.1)
      · rw [if_pos h2, if_pos (List.mem_cons.mpr (Or.inr h2))]
      · rw [if_neg h2]
        have hnotmem : name ∉ k1 :: rest.map (fun p => p.1) := by
          intro hmem
          rcases List.mem_cons.mp hmem with hh | hh
          · exact h1s hh
          · exact h2 hh
        rw [if_neg hnotmem]
        rfl

theorem nodup_keys_bumpCount (name : String) (acc : List (String × Int))
    (h : (keysOf acc).Nodup) : (keysOf (bumpCount name acc)).Nodup := by
  rw [keysOf_bumpCount]
  split
  · exact h
  · rename_i hnot
    refine List.Nodup.append h (by simp) ?_
    intro a ha hb
    simp at hb
    subst hb
    exact hnot ha

theorem nodup_keys_taskCounts_aux :
    ∀ (records : List SessionRecord) (acc : List (String × Int)),
      (keysOf acc).Nodup →
      (keysOf (records.foldl (fun a r => bumpCount r.taskName a) acc)).Nodup := by
  intro records
  induction records with
  | nil => intro acc h; simpa using h
  | cons r rs ih =>
    intro acc h
    rw [List.foldl_cons]
    exact ih _ (nodup_keys_bumpCount r.taskName acc h)

theorem nodup_keys_taskCounts (records : List SessionRecord) :
    (keysOf (taskCounts records)).Nodup :=
  nodup_keys_taskCounts_aux records [] (by simp [keysOf])

/-! ### Lemmas about the per-task accumulators -/

/-- First-match lookup of a task accumulator, with the fresh accumulator
    as default. -/
def detOf (k : String) : List (String × TaskDetails) → TaskDetails
  | [] => TaskDetails.empty
  | p :: rest => if p.1 = k then p.2 else detOf k rest

theorem detOf_of_mem (k : String) (d : TaskDetails) :
    ∀ (acc : List (String × TaskDetails)), (keysOf acc).Nodup → (k, d) ∈ acc →
      detOf k acc = d := by
  intro acc
  induction acc with
  | nil => intro _ h; simp at h
  | cons p rest ih =>
    intro hnd hmem
    rcases p with ⟨k1, d1⟩
    simp only [keysOf, List.map_cons, List.nodup_cons] at hnd
    rcases List.mem_cons.mp hmem with h1 | h1
    · have hk : k = k1 := congrArg Prod.fst h1
      have hd : d = d1 := congrArg Prod.snd h1
      subst hk
      simp [detOf, hd]
    · have hk1 : ¬ (k1 = k) := by
        intro hcontra
        subst hcontra
        exact hnd.1 (List.mem_map_of_mem (fun p => p.1) h1)
      simp only [detOf, if_neg hk1]
      exact ih hnd.2 h1

theorem detOf_updateDetails (todayStr : String) (r : SessionRecord) (k : String) :
    ∀ (acc : List (String × TaskDetails)),
      detOf k (updateDetails todayStr r acc)
        = if r.taskName = k then recordInto todayStr r (detOf k acc)
          else detOf k acc := by
  intro acc
  induction acc with
  | nil =>
    by_cases h : r.taskName = k <;> simp [updateDetails, detOf, h]
  | cons p rest ih =>
    rcases p with ⟨k1, d⟩
    by_cases h1 : k1 = r.taskName
    · by_cases h2 : k1 = k
      · have h3 : r.taskName = k := h1.symm.trans h2
        simp [updateDetails, h1, detOf, h2, h3]
      · have h3 : ¬ r.taskName = k := fun hh => h2 (h1.trans hh)
        have h3s : ¬ k = r.taskName := fun hh => h3 hh.symm
        simp [updateDetails, h1, detOf, h2, h3, h3s]
    · by_cases h2 : k1 = k
      · have h3 : ¬ r.taskName = k := fun hh => h1 (h2.trans hh.symm)
        have h3s : ¬ k = r.taskName := fun hh => h3 hh.symm
        have h1s : ¬ r.taskName = k1 := fun hh => h1 hh.symm
        simp [updateDetails, h1, detOf, h2, h3, h3s, h1s]
      · simp [updateDetails, h1, detOf, h2, ih]

theorem sumDur_cons (r : SessionRecord) (rs : List SessionRecord) (k : String) :
    sumDur (r :: rs) k
      = (if r.taskName = k then r.duration else 0) + sumDur rs k := by
  by_cases h : r.taskName = k <;> simp [sumDur, List.filter_cons, h]

theorem sumDurToday_cons (todayStr : String) (r : SessionRecord)
    (rs : List SessionRecord) (k : String) :
    sumDurToday todayStr (r :: rs) k
      = (if r.taskName = k ∧ r.date = todayStr then r.duration else 0)
        + sumDurToday todayStr rs k := by
  by_cases h : r.taskName = k ∧ r.date = todayStr <;>
    simp [sumDurToday, List.filter_cons, h]

theorem activeDateFinset_cons (r : SessionRecord) (rs : List SessionRecord)
    (k : String) :
    activeDateFinset (r :: rs) k
      = (if r.taskName = k then {r.date} else ∅) ∪ activeDateFinset rs k := by
  by_cases h : r.taskName = k <;>
    simp [activeDateFinset, List.filter_cons, h, Finset.insert_eq]

theorem nodup_addActiveDate (l : List String) (d : String) (h : l.Nodup) :
    (addActiveDate l d).Nodup := by
  unfold addActiveDate
  split
  · exact h
  · rename_i hd
    refine List.Nodup.append h (by simp) ?_
    intro a ha hb
    simp at hb
    subst hb
    exact hd ha

theorem toFinset_addActiveDate (l : List String) (d : String) :
    (addActiveDate l d).toFinset = insert d l.toFinset := by
  unfold addActiveDate
  split
  · rename_i hd
    exact (Finset.insert_eq_self.mpr (List.mem_toFinset.mpr hd)).symm
  · ext x
    simp [or_comm]

theorem total_build (todayStr k : String) :
    ∀ (records : List SessionRecord) (acc : List (String × TaskDetails)),
      (detOf k (records.foldl (fun a r => updateDetails todayStr r a) acc)).totalDuration
        = (detOf k acc).totalDuration + sumDur records k := by
  intro records
  induction records with
  | nil => intro acc; simp [sumDur]
  | cons r rs ih =>
    intro acc
    rw [List.foldl_cons, ih, detOf_updateDetails, sumDur_cons]
    by_cases h : r.taskName = k
    · simp [h, recordInto]
      omega
    · simp [h]

theorem today_build (todayStr k : String) :
    ∀ (records : List SessionRecord) (acc : List (String × TaskDetails)),
      (detOf k (records.foldl (fun a r => updateDetails todayStr r a) acc)).todayDuration
        = (detOf k acc).todayDuration + sumDurToday todayStr records k := by
  intro records
  induction records with
  | nil => intro acc; simp [sumDurToday]
  | cons r rs ih =>
    intro acc
    rw [List.foldl_cons, ih, detOf_updateDetails, sumDurToday_cons]
    by_cases h : r.taskName = k
    · by_cases hd : r.date = todayStr
      · simp [h, hd, recordInto]
        omega
      · simp [h, hd, recordInto]
    · have h2 : ¬ (r.taskName = k ∧ r.date = todayStr) := fun hh => h hh.1
      simp [h, h2]

theorem dates_build (todayStr k : String) :
    ∀ (records : List SessionRecord) (acc : List (String × TaskDetails)),
      (detOf k acc).activeDates.Nodup →
      ((detOf k (records.foldl (fun a r => updateDetails todayStr r a) acc)).activeDates.Nodup
        ∧ (detOf k (records.foldl (fun a r => updateDetails todayStr r a) acc)).activeDates.toFinset
            = (detOf k acc).activeDates.toFinset ∪ activeDateFinset records k) := by
  intro records
  induction records with
  | nil =>
    intro acc h
    refine ⟨h, ?_⟩
    simp [activeDateFinset]
  | cons r rs ih =>
    intro acc h
    rw [List.foldl_cons]
    have hstep := detOf_updateDetails todayStr r k acc
    have hnodup2 : (detOf k (updateDetails todayStr r acc)).activeDates.Nodup := by
      rw [hstep]
      by_cases hm : r.taskName = k
      · simp only [if_pos hm, recordInto]
        exact nodup_addActiveDate _ _ h
      · simp only [if_neg hm]
        exact h
    obtain ⟨hn, hf⟩ := ih (updateDetails todayStr r acc) hnodup2
    refine ⟨hn, ?_⟩
    rw [hf, hstep, activeDateFinset_cons]
    by_cases hm : r.taskName = k
    · simp only [if_pos hm, recordInto, toFinset_addActiveDate]
      ext x
      simp
      tauto
    · simp [hm]

theorem keysOf_updateDetails (todayStr : String) (r : SessionRecord) :
    ∀ (acc : List (String × TaskDetails)),
      keysOf (updateDetails todayStr r acc)
        = if r.taskName ∈ keysOf acc then keysOf acc
          else keysOf acc ++ [r.taskName] := by
  intro acc
  induction acc with
  | nil => simp [updateDetails, keysOf]
  | cons p rest ih =>
    rcases p with ⟨k1, d⟩
    by_cases h1 : k1 = r.taskName
    · subst h1
      simp [updateDetails, keysOf]
    · have h1s : ¬ r.taskName = k1 := fun hh => h1 hh.symm
      simp only [updateDetails, if_neg h1, keysOf, List.map_cons]
      simp only [keysOf] at ih
      rw [ih]
      by_cases h2 : r.taskName ∈ rest.map (fun p => p.1)
      · rw [if_pos h2, if_pos (List.mem_cons.mpr (Or.inr h2))]
      · rw [if_neg h2]
        have hnotmem : r.taskName ∉ k1 :: rest.map (fun p => p.1) := by
          intro hmem
          rcases List.mem_cons.mp hmem with hh | hh
          · exact h1s hh
          · exact h2 hh
        rw [if_neg hnotmem]
        rfl

theorem mem_keys_updateDetails (todayStr : String) (r : SessionRecord)
    (acc : List (String × TaskDetails)) (k : String) :
    k ∈ keysOf (updateDetails todayStr r acc)
      ↔ k ∈ keysOf acc ∨ k = r.taskName := by
  rw [keysOf_updateDetails]
  split
  · rename_i hmem
    constructor
    · exact Or.inl
    · rintro (h | h)
      · exact h
      · rw [h]; exact hmem
  · simp

theorem nodup_keys_updateDetails (todayStr : String) (r : SessionRecord)
    (acc : List (String × TaskDetails)) (h : (keysOf acc).Nodup) :
    (keysOf (updateDetails todayStr r acc)).Nodup := by
  rw [keysOf_updateDetails]
  split
  · exact h
  · rename_i hnot
    refine List.Nodup.append h (by simp) ?_
    intro a ha hb
    simp at hb
    subst hb
    exact hnot ha

theorem nodup_keys_build (todayStr : String) :
    ∀ (records : List SessionRecord) (acc : List (String × TaskDetails)),
      (keysOf acc).Nodup →
      (keysOf (records.foldl (fun a r => updateDetails todayStr r a) acc)).Nodup := by
  intro records
  induction records with
  | nil => intro acc h; simpa using h
  | cons r rs ih =>
    intro acc h
    rw [List.foldl_cons]
    exact ih _ (nodup_keys_updateDetails todayStr r acc h)

theorem mem_keys_build (todayStr : String) :
    ∀ (records : List SessionRecord) (acc : List (String × TaskDetails)) (k : String),
      k ∈ keysOf (records.foldl (fun a r => updateDetails todayStr r a) acc)
        ↔ k ∈ keysOf acc ∨ k ∈ records.map (fun r => r.taskName) := by
  intro records
  induction records with
  | nil => intro acc k; simp
  | cons r rs ih =>
    intro acc k
    rw [List.foldl_cons, ih, mem_keys_updateDetails]
    simp only [List.map_cons, List.mem_cons]
    tauto

theorem nodup_keys_buildTaskDetails (todayStr : String)
    (records : List SessionRecord) :
    (keysOf (buildTaskDetails todayStr records)).Nodup :=
  nodup_keys_build todayStr records [] (by simp [keysOf])

theorem total_buildTaskDetails (todayStr k : String) (records : List SessionRecord) :
    (detOf k (buildTaskDetails todayStr records)).totalDuration = sumDur records k := by
  have h := total_build todayStr k records []
  simp only [detOf] at h
  simpa [buildTaskDetails, TaskDetails.empty] using h

theorem today_buildTaskDetails (todayStr k : String) (records : List SessionRecord) :
    (detOf k (buildTaskDetails todayStr records)).todayDuration
      = sumDurToday todayStr records k := by
  have h := today_build todayStr k records []
  simp only [detOf] at h
  simpa [buildTaskDetails, TaskDetails.empty] using h

theorem dates_buildTaskDetails (todayStr k : String) (records : List SessionRecord) :
    (detOf k (buildTaskDetails todayStr records)).activeDates.Nodup
    ∧ (detOf k (buildTaskDetails todayStr records)).activeDates.toFinset
        = activeDateFinset records k := by
  have h := dates_build todayStr k records [] (by simp [detOf, TaskDetails.empty])
  simp only [detOf] at h
  simpa [buildTaskDetails, TaskDetails.empty] using h

theorem getStats_taskSummaries (now off : Int) (records : List SessionRecord) :
    (getStats now off records).taskSummaries
      = taskSummariesOf (localDateStr off now) records := rfl

/-- Claim C2: every summary returned by computeStatistics carries, for
    its task, the summed duration as totalDuration, the summed duration
    on the current local date as todayDuration, and the total divided by
    the number of distinct active dates (0 when there are none) as
    averageDuration; and the summaries cover exactly the task names
    occurring in the log. -/
theorem taskSummaries_values_spec (now off : Int) (records : List SessionRecord) :
    (∀ e ∈ (getStats now off records).taskSummaries,
        e.totalDuration = sumDur records e.name
        ∧ e.todayDuration = sumDurToday (localDateStr off now) records e.name
        ∧ e.averageDuration
            = (if (activeDateFinset records e.name).card = 0 then 0
               else (sumDur records e.name : Rat)
                  / ((activeDateFinset records e.name).card : Rat)))
    ∧ (∀ k : String,
        k ∈ ((getStats now off records).taskSummaries).map (fun s => s.name)
          ↔ k ∈ records.map (fun r => r.taskName)) := by
  constructor
  · intro e he
    rw [getStats_taskSummaries] at he
    have he2 : e ∈ (buildTaskDetails (localDateStr off now) records).map mkSummary :=
      (mem_sortDesc _ _ _).mp he
    rcases List.mem_map.mp he2 with ⟨p, hp, hpe⟩
    rcases p with ⟨k, d⟩
    subst hpe
    have hnd := nodup_keys_buildTaskDetails (localDateStr off now) records
    have hdet := detOf_of_mem k d _ hnd hp
    have htot := total_buildTaskDetails (localDateStr off now) k records
    have htod := today_buildTaskDetails (localDateStr off now) k records
    have hdat := dates_buildTaskDetails (localDateStr off now) k records
    rw [hdet] at htot htod hdat
    obtain ⟨hdatnodup, hdatfin⟩ := hdat
    have hlen : d.activeDates.length = (activeDateFinset records k).card := by
      rw [← hdatfin]
      exact (List.toFinset_card_of_nodup hdatnodup).symm
    refine ⟨?_, ?_, ?_⟩
    · simpa [mkSummary] using htot
    · simpa [mkSummary] using htod
    · simp only [mkSummary]
      rw [hlen, htot]
      by_cases hc : (activeDateFinset records k).card = 0
      · simp [hc]
      · have hpos : 0 < (activeDateFinset records k).card := Nat.pos_of_ne_zero hc
        simp [hc, hpos]
  · intro k
    rw [getStats_taskSummaries]
    constructor
    · intro h
      rcases List.mem_map.mp h with ⟨e, he, hek⟩
      have he2 := (mem_sortDesc _ _ _).mp he
      rcases List.mem_map.mp he2 with ⟨p, hp, hpe⟩
      have hk : p.1 = k := by rw [← hek, ← hpe]; rfl
      have hmemk : k ∈ keysOf (buildTaskDetails (localDateStr off now) records) := by
        rw [← hk]
        exact List.mem_map_of_mem (fun p => p.1) hp
      have := (mem_keys_build (localDateStr off now) records [] k).mp hmemk
      simpa [keysOf] using this
    · intro h
      have hkeys : k ∈ keysOf (buildTaskDetails (localDateStr off now) records) :=
        (mem_keys_build (localDateStr off now) records [] k).mpr (by simp [keysOf, h])
      rcases List.mem_map.mp hkeys with ⟨p, hp, hpk⟩
      refine List.mem_map.mpr ⟨mkSummary p, ?_, ?_⟩
      · exact (mem_sortDesc _ _ _).mpr (List.mem_map_of_mem mkSummary hp)
      · rw [← hpk]; rfl

/-! ### Lemmas about the 30-day chart -/

/-- First-match lookup of a task value in a chart point. -/
def valLookup (task : String) : List (String × Rat) → Option Rat
  | [] => none
  | p :: rest => if p.1 = task then some p.2 else valLookup task rest

/-- Array.prototype.find on the chart: the first point with the date. -/
def lookupDate (d : String) : List ChartPoint → Option ChartPoint
  | [] => none
  | p :: ps => if p.date = d then some p else lookupDate d ps

/-- The task value carried by the first chart point with the date. -/
def chartVal (chart : List ChartPoint) (d task : String) : Option Rat :=
  (lookupDate d chart).bind (fun p => valLookup task p.vals)

theorem optmap_add_zero (o : Option Rat) : o.map (fun v => v + 0) = o := by
  cases o <;> simp

theorem valLookup_bumpVals (t task : String) (q : Rat) :
    ∀ (vals : List (String × Rat)),
      valLookup task (bumpVals t q vals)
        = (valLookup task vals).map (fun w => if t = task then w + q else w) := by
  intro vals
  induction vals with
  | nil => simp [bumpVals, valLookup]
  | cons p rest ih =>
    rcases p with ⟨k, v⟩
    by_cases h1 : k = t
    · by_cases h2 : k = task
      · have h3 : t = task := h1.symm.trans h2
        simp [bumpVals, valLookup, h1, h2, h3]
      · have h3 : ¬ t = task := fun hh => h2 (h1.trans hh)
        have h3s : ¬ task = t := fun hh => h3 hh.symm
        simp [bumpVals, valLookup, h1, h2, h3, h3s]
        simpa [bumpVals, h3] using ih
    · by_cases h2 : k = task
      · have h3 : ¬ t = task := fun hh => h1 (h2.trans hh.symm)
        have h3s : ¬ task = t := fun hh => h3 hh.symm
        have h1s : ¬ t = k := fun hh => h1 hh.symm
        simp [bumpVals, valLookup, h1, h2, h3, h3s, h1s]
      · simp [bumpVals, valLookup, h1, h2]
        simpa [bumpVals] using ih

theorem minuteSum_cons (r : SessionRecord) (rs : List SessionRecord)
    (task d : String) :
    minuteSum (r :: rs) task d
      = (if r.taskName = task ∧ r.date = d then (r.duration : Rat) / 60000 else 0)
        + minuteSum rs task d := by
  by_cases h : r.taskName = task ∧ r.date = d <;>
    simp [minuteSum, List.filter_cons, h]

theorem chartVal_applyRecord (tt : List String) (r : SessionRecord)
    (d task : String) (htask : task ∈ tt) :
    ∀ (chart : List ChartPoint),
      chartVal (applyRecord tt chart r) d task
        = (chartVal chart d task).map
            (fun v => v + (if r.taskName = task ∧ r.date = d then
              (r.duration : Rat) / 60000 else 0)) := by
  intro chart
  induction chart with
  | nil => simp [applyRecord, chartVal, lookupDate]
  | cons p ps ih =>
    by_cases hpd : p.date = r.date
    · by_cases hd : p.date = d
      · have hrd : r.date = d := hpd.symm.trans hd
        by_cases hmem : r.taskName ∈ tt
        · simp only [applyRecord, if_pos hpd, if_pos hmem]
          simp [chartVal, lookupDate, hd, valLookup_bumpVals]
          by_cases htn : r.taskName = task
          · cases hv : valLookup task p.vals <;> simp [htn, hrd, hv]
          · cases hv : valLookup task p.vals <;> simp [htn, hrd, hv]
        · have htn : ¬ r.taskName = task := fun hh => hmem (hh ▸ htask)
          have hcond : ¬ (r.taskName = task ∧ r.date = d) := fun hh => htn hh.1
          simp only [applyRecord, if_pos hpd, if_neg hmem]
          simp [chartVal, hcond, optmap_add_zero]
      · have hrd : ¬ r.date = d := fun hh => hd (hpd.trans hh)
        have hcond : ¬ (r.taskName = task ∧ r.date = d) := fun hh => hrd hh.2
        simp only [applyRecord, if_pos hpd]
        by_cases hmem : r.taskName ∈ tt
        · simp only [if_pos hmem]
          simp [chartVal, lookupDate, hd, hcond, optmap_add_zero]
        · simp only [if_neg hmem]
          simp [chartVal, lookupDate, hd, hcond, optmap_add_zero]
    · simp only [applyRecord, if_neg hpd]
      by_cases hd : p.date = d
      · have hrd : ¬ r.date = d := fun hh => hpd (hd.trans hh.symm)
        have hcond : ¬ (r.taskName = task ∧ r.date = d) := fun hh => hrd hh.2
        simp [chartVal, lookupDate, hd, hcond, optmap_add_zero]
      · simp only [chartVal, lookupDate, if_neg hd]
        simpa [chartVal] using ih

theorem chartVal_foldl (tt : List String) (d task : String) (htask : task ∈ tt) :
    ∀ (records : List SessionRecord) (chart : List ChartPoint),
      chartVal (records.foldl (applyRecord tt) chart) d task
        = (chartVal chart d task).map (fun v => v + minuteSum records task d) := by
  intro records
  induction records with
  | nil =>
    intro chart
    simp [minuteSum]
  | cons r rs ih =>
    intro chart
    rw [List.foldl_cons, ih, chartVal_applyRecord tt r d task htask, minuteSum_cons]
    cases hv : chartVal chart d task with
    | none => simp
    | some v =>
      simp
      ring

theorem lookupDate_initKeys (tt : List String) (d : String) :
    ∀ (keys : List String), d ∈ keys →
      lookupDate d (keys.map (fun d2 =>
          (⟨d2, tt.map (fun t => (t, (0 : Rat)))⟩ : ChartPoint)))
        = some ⟨d, tt.map (fun t => (t, (0 : Rat)))⟩ := by
  intro keys
  induction keys with
  | nil => intro h; simp at h
  | cons a ks ih =>
    intro h
    by_cases ha : a = d
    · subst ha
      simp [lookupDate]
    · have hmem : d ∈ ks := by
        rcases List.mem_cons.mp h with h1 | h1
        · exact absurd h1.symm ha
        · exact h1
      simp only [List.map_cons, lookupDate, if_neg ha]
      exact ih hmem

theorem valLookup_zeros (task : String) :
    ∀ (tt : List String), task ∈ tt →
      valLookup task (tt.map (fun t => (t, (0 : Rat)))) = some 0 := by
  intro tt
  induction tt with
  | nil => intro h; simp at h
  | cons a ts ih =>
    intro h
    by_cases ha : a = task
    · simp [valLookup, ha]
    · have hmem : task ∈ ts := by
        rcases List.mem_cons.mp h with h1 | h1
        · exact absurd h1.symm ha
        · exact h1
      simp only [List.map_cons, valLookup, if_neg ha]
      exact ih hmem

theorem map_date_applyRecord (tt : List String) (r : SessionRecord) :
    ∀ (chart : List ChartPoint),
      (applyRecord tt chart r).map (fun p => p.date)
        = chart.map (fun p => p.date) := by
  intro chart
  induction chart with
  | nil => rfl
  | cons p ps ih =>
    simp only [applyRecord]
    by_cases hpd : p.date = r.date
    · by_cases hmem : r.taskName ∈ tt <;> simp [hpd, hmem]
    · simp [hpd, ih]

theorem map_date_foldl (tt : List String) :
    ∀ (records : List SessionRecord) (chart : List ChartPoint),
      ((records.foldl (applyRecord tt) chart).map (fun p => p.date))
        = chart.map (fun p => p.date) := by
  intro records
  induction records with
  | nil => intro chart; rfl
  | cons r rs ih =>
    intro chart
    rw [List.foldl_cons, ih, map_date_applyRecord]

theorem lookupDate_of_mem (p : ChartPoint) :
    ∀ (chart : List ChartPoint), (chart.map (fun q => q.date)).Nodup →
      p ∈ chart → lookupDate p.date chart = some p := by
  intro chart
  induction chart with
  | nil => intro _ h; simp at h
  | cons q ps ih =>
    intro hnd hmem
    simp only [List.map_cons, List.nodup_cons] at hnd
    rcases List.mem_cons.mp hmem with h1 | h1
    · subst h1
      simp [lookupDate]
    · have hq : ¬ q.date = p.date := by
        intro hcontra
        exact hnd.1 (hcontra ▸ List.mem_map_of_mem (fun q => q.date) h1)
      simp only [lookupDate, if_neg hq]
      exact ih hnd.2 h1

theorem getStats_chartData (now off : Int) (records : List SessionRecord) :
    (getStats now off records).chartData
      = chartDataOf now (topTasksOf (localDateStr off now) records) records := rfl

theorem getStats_topTasks (now off : Int) (records : List SessionRecord) :
    (getStats now off records).topTasks
      = topTasksOf (localDateStr off now) records := rfl

/-- Claim C4 (amended): provided the 30 generated date keys are distinct
    (true of every actual clock reading), the 30-day series has exactly
    the 30 UTC calendar dates ending at the UTC date of the stats
    instant as its entry dates, one entry each, and every entry carries,
    for each top-5 task, the summed duration in minutes
    (milliseconds / 60000) of that task on the entry date, present with
    value 0 rather than absent when nothing matches. -/
theorem chartData_series_spec (now off : Int) (records : List SessionRecord)
    (h : (dateKeys now).Nodup) :
    ((getStats now off records).chartData).map (fun p => p.date) = dateKeys now
    ∧ ((getStats now off records).chartData).length = 30
    ∧ ∀ p ∈ (getStats now off records).chartData,
        ∀ task ∈ (getStats now off records).topTasks,
          valLookup task p.vals = some (minuteSum records task p.date) := by
  rw [getStats_chartData, getStats_topTasks]
  have hmap : (chartDataOf now (topTasksOf (localDateStr off now) records) records).map
      (fun p => p.date) = dateKeys now := by
    unfold chartDataOf
    rw [map_date_foldl]
    unfold initChart
    rw [List.map_map]
    exact List.map_id _
  refine ⟨hmap, ?_, ?_⟩
  · have hlen : ((chartDataOf now (topTasksOf (localDateStr off now) records) records).map
        (fun p => p.date)).length = (dateKeys now).length := by rw [hmap]
    simpa [dateKeys] using hlen
  · intro p hp task htask
    have hnd : ((chartDataOf now (topTasksOf (localDateStr off now) records) records).map
        (fun q => q.date)).Nodup := by
      rw [show ((chartDataOf now (topTasksOf (localDateStr off now) records) records).map
        (fun q => q.date)) = dateKeys now from hmap]
      exact h
    have hlp := lookupDate_of_mem p _ hnd hp
    have hdmem : p.date ∈ dateKeys now := by
      rw [← hmap]
      exact List.mem_map_of_mem (fun q => q.date) hp
    have hinit := lookupDate_initKeys (topTasksOf (localDateStr off now) records)
      p.date (dateKeys now) hdmem
    have hinitval : chartVal (initChart now (topTasksOf (localDateStr off now) records))
        p.date task = some 0 := by
      unfold chartVal initChart
      rw [hinit]
      simp [valLookup_zeros task _ htask]
    have hfold := chartVal_foldl (topTasksOf (localDateStr off now) records)
      p.date task htask records
      (initChart now (topTasksOf (localDateStr off now) records))
    rw [hinitval] at hfold
    have hval : chartVal (chartDataOf now (topTasksOf (localDateStr off now) records) records)
        p.date task = some (minuteSum records task p.date) := by
      unfold chartDataOf
      rw [hfold]
      simp
    unfold chartVal at hval
    rw [hlp] at hval
    simpa using hval

/-- The example log of the spec: task A recorded once for five hours,
    task B recorded ten times for one minute each. -/
def exampleAB : List SessionRecord :=
  [⟨"a1", "2024-01-10", "09:00", "A", 18000000⟩,
   ⟨"b1", "2024-01-10", "10:00", "B", 60000⟩,
   ⟨"b2", "2024-01-10", "10:05", "B", 60000⟩,
   ⟨"b3", "2024-01-10", "10:10", "B", 60000⟩,
   ⟨"b4", "2024-01-10", "10:15", "B", 60000⟩,
   ⟨"b5", "2024-01-10", "10:20", "B", 60000⟩,
   ⟨"b6", "2024-01-10", "10:25", "B", 60000⟩,
   ⟨"b7", "2024-01-10", "10:30", "B", 60000⟩,
   ⟨"b8", "2024-01-10", "10:35", "B", 60000⟩,
   ⟨"b9", "2024-01-10", "10:40", "B", 60000⟩,
   ⟨"b10", "2024-01-10", "10:45", "B", 60000⟩]

/-- Claim C5: computeStatistics returns frequentTasks as the task names
    ranked by occurrence count (number of records) descending, ties by
    first-seen order, truncated to 8; the counter of every task equals
    its number of records; and on the example log the task recorded once
    for five hours leads taskSummaries while the task recorded ten times
    for one minute each leads frequentTasks. -/
theorem frequentTasks_spec_thm :
    (∀ (now off : Int) (records : List SessionRecord),
        (getStats now off records).frequentTasks = frequentTasksSpec records)
    ∧ (∀ (records : List SessionRecord) (p : String × Int),
        p ∈ taskCounts records → p.2 = countRecords records p.1)
    ∧ ((getStats 1705348800000 0 exampleAB).taskSummaries.head?.map (fun s => s.name)
          = some "A"
        ∧ (getStats 1705348800000 0 exampleAB).frequentTasks.head? = some "B") := by
  refine ⟨?_, ?_, ?_, ?_⟩
  · intro now off records
    simp only [getStats, frequentTasksOf, frequentTasksSpec, sortDesc_eq_sortDescIdx]
  · intro records p hp
    rcases p with ⟨k, c⟩
    have h1 := cntOf_of_mem k c (taskCounts records) (nodup_keys_taskCounts records) hp
    have h2 := cntOf_taskCounts records k
    rw [← h2]
    exact h1.symm
  · decide
  · decide

/-- Witness for claim C5: the universally quantified parts applied at
    the example log, with the counter of the pair for task B checked
    concretely. -/
theorem frequentTasks_spec_witness :
    (getStats 1705348800000 0 exampleAB).frequentTasks = frequentTasksSpec exampleAB
    ∧ ((10 : Int) = countRecords exampleAB "B") :=
  ⟨frequentTasks_spec_thm.1 1705348800000 0 exampleAB,
   frequentTasks_spec_thm.2.1 exampleAB ("B", 10) (by decide)⟩

/-- Claim C6: the taskSummaries returned by computeStatistics are the
    per-task summaries sorted descending by totalDuration with ties in
    first-encounter order (the stable order, stated as equality with the
    position-keyed sort and as pairwise descending totals), and topTasks
    is the first 5 names of that order. -/
theorem taskSummaries_order_spec (now off : Int) (records : List SessionRecord) :
    (getStats now off records).taskSummaries
        = taskSummariesSpec (localDateStr off now) records
    ∧ ((getStats now off records).taskSummaries).Pairwise
        (fun a b => b.totalDuration ≤ a.totalDuration)
    ∧ (getStats now off records).topTasks
        = ((taskSummariesSpec (localDateStr off now) records).take 5).map (fun s => s.name) := by
  refine ⟨?_, ?_, ?_⟩
  · simp only [getStats, taskSummariesOf, taskSummariesSpec, sortDesc_eq_sortDescIdx]
  · simp only [getStats, taskSummariesOf]
    exact pairwise_sortDesc _ _
  · simp only [getStats, topTasksOf, taskSummariesOf, taskSummariesSpec,
      sortDesc_eq_sortDescIdx]

/-- Counterexample to claim C4 as stated: at 2024-01-15T20:00Z in a zone
    nine hours east of UTC the local calendar date is 2024-01-16, but
    the 30-day series has no entry for it: its keys end at the UTC date
    2024-01-15. -/
theorem chartData_local_today_cex :
    localDateStr 540 1705348800000 ∉
      ((getStats 1705348800000 540 []).chartData).map (fun p => p.date) := by
  decide

/-- The 30-day series computed on the example log at 2024-01-15T20:00Z
    in the UTC zone. -/
def exampleChart : List ChartPoint :=
  (getStats 1705348800000 0 exampleAB).chartData

theorem exampleChart_ne_nil : exampleChart ≠ [] := by decide

/-- Witness for the amended claim C4: the key-distinctness hypothesis
    and the per-entry membership hypotheses are discharged at the
    example log, the first series entry and the task A. -/
theorem chartData_series_witness :
    valLookup "A" (exampleChart.head exampleChart_ne_nil).vals
      = some (minuteSum exampleAB "A" (exampleChart.head exampleChart_ne_nil).date) :=
  (chartData_series_spec 1705348800000 0 exampleAB (by decide)).2.2
    (exampleChart.head exampleChart_ne_nil) (List.head_mem exampleChart_ne_nil)
    "A" (by decide)

/-- The summaries computed on the example log at 2024-01-15T20:00Z in
    the UTC zone. -/
def exampleSummaries : List TaskSummary :=
  (getStats 1705348800000 0 exampleAB).taskSummaries

theorem exampleSummaries_ne_nil : exampleSummaries ≠ [] := by decide

/-- Witness for claim C2: the leading summary of the example log carries
    the specified totals and per-active-day average. -/
theorem taskSummaries_values_witness :
    (exampleSummaries.head exampleSummaries_ne_nil).totalDuration
        = sumDur exampleAB (exampleSummaries.head exampleSummaries_ne_nil).name
    ∧ (exampleSummaries.head exampleSummaries_ne_nil).todayDuration
        = sumDurToday (localDateStr 0 1705348800000) exampleAB
            (exampleSummaries.head exampleSummaries_ne_nil).name
    ∧ (exampleSummaries.head exampleSummaries_ne_nil).averageDuration
        = (if (activeDateFinset exampleAB
                (exampleSummaries.head exampleSummaries_ne_nil).name).card = 0 then 0
           else (sumDur exampleAB (exampleSummaries.head exampleSummaries_ne_nil).name : Rat)
              / ((activeDateFinset exampleAB
                  (exampleSummaries.head exampleSummaries_ne_nil).name).card : Rat)) :=
  (taskSummaries_values_spec 1705348800000 0 exampleAB).1
    (exampleSummaries.head exampleSummaries_ne_nil)
    (List.head_mem exampleSummaries_ne_nil)

end RecordingEffort
